import Mathlib

/-!
Shallow embedding of `internal/platform/proxy/dnscache.go`: an in-memory DNS
resolution cache (`Resolver`) with operations `LookupIP`, `Fetch`, `Refresh`
and `Stop`, built by `NewDNSResolver`.

Modelling conventions:
* `net.IP` and Go `error` values are opaque to the cache, so they are modelled
  as `Nat`.
* `context.Context` is modelled by `Ctx`: `background` for
  `context.Background()` and `withTimeout` for `context.WithTimeout`;
  the cache only threads contexts through to the resolution capability.
* The Go map `map[string][]net.IP` is modelled as an association list with
  `cacheFind` / `cacheInsert` mirroring map read and map assignment.
* The resolution capability (the `lookupIPFn` field, a closure over
  `*net.Resolver`) is passed to each operation as an explicit function
  argument so that the `Resolver` state stays first-order; the external DNS
  world may answer differently at different times, which the trace semantics
  (`Op`) reflects by letting every step carry the capability in effect then.
* Go returns a pair `([]net.IP, error)` where exactly one side is meaningful;
  this is modelled as `Except Err (List IP)` (`.error e` stands for
  `(nil, err)`).
* Each operation returns an `Out` record: the Go return value, the post
  state, the number of invocations of the resolution capability, the trace of
  lock/cache/resolve events (used to state the lock discipline), the list of
  `logger.Error` reports, and the list of resolution attempts with their
  results (used to state the cache invariant).
* The background goroutine and `closer` are represented by the
  `tickerActive` / `chClosed` / `closerPresent` fields: `closer` stops the
  ticker and closes the channel, and closing an already closed channel is a
  runtime fault, modelled by `closerRun` returning `none`.
-/

namespace DNSCache

/-- `net.IP`, opaque to the cache. -/
abbrev IP := Nat

/-- A Go `error` value, opaque to the cache. -/
abbrev Err := Nat

/-- `context.Context` as the cache uses it: `context.Background()` or
`context.WithTimeout(parent, d)` (duration in nanoseconds). -/
inductive Ctx where
  | background : Ctx
  | withTimeout : Ctx → Int → Ctx
deriving DecidableEq

/-- Result of one invocation of the resolution capability:
`.ok ips` for `(ips, nil)`, `.error e` for `(nil, err)`. -/
abbrev ResResult := Except Err (List IP)

/-- The in-memory cache `map[string][]net.IP`, as an association list. -/
abbrev Cache := List (String × List IP)

/-- Map read `ips, ok := cache[addr]`: `some ips` iff the key is present. -/
def cacheFind : Cache → String → Option (List IP)
  | [], _ => none
  | (k, v) :: rest, h => if k = h then some v else cacheFind rest h

/-- Map assignment `cache[addr] = ips`: replaces the entry if the key is
present, otherwise adds it. -/
def cacheInsert : Cache → String → List IP → Cache
  | [], h, ips => [(h, ips)]
  | (k, v) :: rest, h, ips =>
      if k = h then (k, ips) :: rest else (k, v) :: cacheInsert rest h ips

/-- The key set of the cache (the hostnames ranged over by
`for addr := range r.cache`). -/
def cacheKeys (c : Cache) : List String := c.map Prod.fst

/-- The `Resolver` struct. The `lookupIPFn` field is supplied to each
operation as an explicit function argument (see the header); `freq` is the
interval held by the ticker; `tickerActive` / `chClosed` model the state of
the ticker and of the channel `ch` the background goroutine waits on;
`closerPresent` is `closer != nil`. -/
structure Resolver where
  lookupTimeout : Int
  freq : Int
  cache : Cache
  closerPresent : Bool
  tickerActive : Bool
  chClosed : Bool
deriving DecidableEq

/-- `time.Second` in nanoseconds (`time.Duration` is an int64 of
nanoseconds). -/
def second : Int := 1000000000

/-- `defaultFreq = 3 * time.Second`. -/
def defaultFreq : Int := 3 * second

/-- `defaultLookupTimeout = 10 * time.Second`. -/
def defaultLookupTimeout : Int := 10 * second

/-- `NewDNSResolver`: non-positive `freq` and `lookupTimeout` fall back to the
defaults; the cache map is created empty; the ticker and the background
goroutine are started and `closer` is installed. -/
def NewDNSResolver (freq lookupTimeout : Int) : Resolver :=
  let freq := if freq ≤ 0 then defaultFreq else freq
  let lookupTimeout := if lookupTimeout ≤ 0 then defaultLookupTimeout else lookupTimeout
  { lookupTimeout := lookupTimeout
    freq := freq
    cache := []
    closerPresent := true
    tickerActive := true
    chClosed := false }

/-- `net.IPAddr`: an IP together with a zone. -/
structure IPAddr where
  ip : IP
  zone : String
deriving DecidableEq

/-- The resolution adapter built inside `NewDNSResolver`: wraps
`resolver.LookupIPAddr` and, on success, projects each `net.IPAddr` to its
`IP` (an empty address list maps to an empty IP list). -/
def mkLookupIPFn (lookupIPAddr : Ctx → String → Except Err (List IPAddr)) :
    Ctx → String → ResResult :=
  fun ctx host =>
    match lookupIPAddr ctx host with
    | .error e => .error e
    | .ok addrs => .ok (addrs.map IPAddr.ip)

/-- Events an operation emits, used to state the lock discipline:
lock/unlock of the `sync.RWMutex` in read (`rlock`/`runlock`) and write
(`wlock`/`wunlock`) mode, an invocation of the resolution capability
(`resolve`), a cache map read (`readCache`), a cache map write
(`writeCache`), and the key-set snapshot taken by `Refresh`
(`snapshotKeys`). -/
inductive Evt where
  | rlock : Evt
  | runlock : Evt
  | wlock : Evt
  | wunlock : Evt
  | resolve : String → Evt
  | readCache : String → Evt
  | writeCache : String → Evt
  | snapshotKeys : Evt
deriving DecidableEq

instance {ε α : Type} [DecidableEq ε] [DecidableEq α] : DecidableEq (Except ε α) := fun x y =>
  match x, y with
  | .error a, .error b =>
      if h : a = b then .isTrue (by rw [h]) else .isFalse (by intro hh; cases hh; exact h rfl)
  | .error _, .ok _ => .isFalse (by intro hh; cases hh)
  | .ok _, .error _ => .isFalse (by intro hh; cases hh)
  | .ok a, .ok b =>
      if h : a = b then .isTrue (by rw [h]) else .isFalse (by intro hh; cases hh; exact h rfl)

/-- What one operation produced: the Go return value, the post state, the
number of invocations of the resolution capability, the emitted event trace,
the `logger.Error` reports (error, hostname), and the resolution attempts
made with their results. -/
structure Out (α : Type) where
  ret : α
  st : Resolver
  calls : Nat
  evts : List Evt
  log : List (Err × String)
  attempts : List (String × ResResult)
deriving DecidableEq

/-- `Resolver.LookupIP`: invoke the resolution capability (no lock held); on
failure return `(nil, err)` with the state untouched; on success write the
result into the cache under the exclusive lock, then return it. -/
def Resolver.LookupIP (r : Resolver) (lookupIPFn : Ctx → String → ResResult)
    (ctx : Ctx) (addr : String) : Out ResResult :=
  match lookupIPFn ctx addr with
  | .error e =>
      { ret := .error e
        st := r
        calls := 1
        evts := [.resolve addr]
        log := []
        attempts := [(addr, .error e)] }
  | .ok ips =>
      { ret := .ok ips
        st := { r with cache := cacheInsert r.cache addr ips }
        calls := 1
        evts := [.resolve addr, .wlock, .writeCache addr, .wunlock]
        log := []
        attempts := [(addr, .ok ips)] }

/-- `Resolver.Fetch`: read the cache under the shared lock; on a hit return
the stored list; on a miss delegate to `LookupIP`. -/
def Resolver.Fetch (r : Resolver) (lookupIPFn : Ctx → String → ResResult)
    (ctx : Ctx) (addr : String) : Out ResResult :=
  match cacheFind r.cache addr with
  | some ips =>
      { ret := .ok ips
        st := r
        calls := 0
        evts := [.rlock, .readCache addr, .runlock]
        log := []
        attempts := [] }
  | none =>
      let o := r.LookupIP lookupIPFn ctx addr
      { o with evts := [.rlock, .readCache addr, .runlock] ++ o.evts }

/-- The `for _, addr := range addrs` loop of `Resolver.Refresh`: for each
hostname of the snapshot, a `LookupIP` bound by a fresh
`context.WithTimeout(context.Background(), r.lookupTimeout)`; a failure is
reported to the logger and the loop continues. -/
def refreshLoop (lookupIPFn : Ctx → String → ResResult) :
    List String → Resolver → Out Unit
  | [], r =>
      { ret := ()
        st := r
        calls := 0
        evts := []
        log := []
        attempts := [] }
  | addr :: rest, r =>
      let o := r.LookupIP lookupIPFn (Ctx.withTimeout .background r.lookupTimeout) addr
      let o' := refreshLoop lookupIPFn rest o.st
      { ret := ()
        st := o'.st
        calls := o.calls + o'.calls
        evts := o.evts ++ o'.evts
        log := (match o.ret with
                | .error e => [(e, addr)]
                | .ok _ => []) ++ o'.log
        attempts := o.attempts ++ o'.attempts }

/-- `Resolver.Refresh`: snapshot the key set under the shared lock, release
it, then re-resolve every snapshotted hostname; failures are logged, never
propagated. -/
def Resolver.Refresh (r : Resolver) (lookupIPFn : Ctx → String → ResResult) :
    Out Unit :=
  let o := refreshLoop lookupIPFn (cacheKeys r.cache) r
  { o with evts := [.rlock, .snapshotKeys, .runlock] ++ o.evts }

/-- The `closer` closure installed by `NewDNSResolver`: `ticker.Stop()` then
`close(ch)`; closing an already closed channel is a runtime fault (`none`). -/
def closerRun (r : Resolver) : Option Resolver :=
  if r.chClosed then none
  else some { r with tickerActive := false, chClosed := true }

/-- `Resolver.Stop`: under the exclusive lock, run `closer` if it is still
installed and clear it; a second call finds `closer == nil` and does
nothing. `none` would mean a runtime fault inside `closer`. -/
def Resolver.Stop (r : Resolver) : Option Resolver :=
  if r.closerPresent then
    (closerRun r).map fun r' => { r' with closerPresent := false }
  else some r

/-- The event trace of `Resolver.Stop`: it only takes the exclusive lock
(deferred unlock); it never touches the cache map and never resolves. -/
def stopEvents : List Evt := [.wlock, .wunlock]

/-- One caller-visible operation. Each step carries the resolution capability
in effect at the time of the call (the Go function object is fixed, but the
external DNS world it consults may answer differently at different times). -/
inductive Op where
  | lookupIP : (Ctx → String → ResResult) → Ctx → String → Op
  | fetch : (Ctx → String → ResResult) → Ctx → String → Op
  | refresh : (Ctx → String → ResResult) → Op
  | stop : Op

/-- Execute one operation: the post state and the resolution attempts made
(each hostname passed to the resolution capability, with the result). For
`stop`, a runtime fault would leave the state unchanged. -/
def execOp (r : Resolver) : Op → Resolver × List (String × ResResult)
  | .lookupIP fn ctx addr =>
      let o := r.LookupIP fn ctx addr
      (o.st, o.attempts)
  | .fetch fn ctx addr =>
      let o := r.Fetch fn ctx addr
      (o.st, o.attempts)
  | .refresh fn =>
      let o := r.Refresh fn
      (o.st, o.attempts)
  | .stop => (r.Stop.getD r, [])

/-- Run a sequence of operations from a state, collecting every resolution
attempt in chronological order. -/
def runTrace (r : Resolver) : List Op → Resolver × List (String × ResResult)
  | [] => (r, [])
  | op :: ops =>
      let p := execOp r op
      let q := runTrace p.1 ops
      (q.1, p.2 ++ q.2)

/-- Fold one resolution attempt into the value known for hostname `x`: a
successful attempt on `x` replaces it, a failed attempt on `x` and any
attempt on another hostname leave it alone. -/
def applyAttempt (acc : Option (List IP)) (x : String) (p : String × ResResult) :
    Option (List IP) :=
  if p.1 = x then
    match p.2 with
    | .ok v => some v
    | .error _ => acc
  else acc

/-- The last successfully resolved result for hostname `x` in a chronological
list of resolution attempts (`none` if no attempt on `x` ever succeeded). -/
def lastSuccess (l : List (String × ResResult)) (x : String) : Option (List IP) :=
  l.foldl (fun acc p => applyAttempt acc x p) none

/-- State of the `sync.RWMutex` along a single operation's event trace:
not held, held in shared (read) mode, held in exclusive (write) mode. -/
inductive LockSt where
  | free : LockSt
  | rheld : LockSt
  | wheld : LockSt
deriving DecidableEq

/-- Lock discipline, one event at a time: lock/unlock must be balanced; a
resolution call is legal only with no lock held; a cache read needs at least
the shared lock; the key-set snapshot is taken under the shared lock; a cache
write needs the exclusive lock. `none` is a discipline violation. -/
def stepEvt : LockSt → Evt → Option LockSt
  | .free, .rlock => some .rheld
  | .rheld, .runlock => some .free
  | .free, .wlock => some .wheld
  | .wheld, .wunlock => some .free
  | .free, .resolve _ => some .free
  | .rheld, .readCache _ => some .rheld
  | .wheld, .readCache _ => some .wheld
  | .rheld, .snapshotKeys => some .rheld
  | .wheld, .writeCache _ => some .wheld
  | _, _ => none

/-- Run the lock-discipline check over a trace; `some s` is the lock state
after the trace, `none` a violation somewhere in it. -/
def disciplineRun : LockSt → List Evt → Option LockSt
  | s, [] => some s
  | s, e :: es =>
      match stepEvt s e with
      | none => none
      | some s' => disciplineRun s' es

/-! Sample capabilities and states for concrete evaluations. -/

/-- A sample resolution capability: `a.test` resolves to `[10]`, every other
hostname fails with error `7`. -/
def fnA : Ctx → String → ResResult :=
  fun _ host => if host = "a.test" then .ok [10] else .error 7

/-- A resolution capability that always fails with error `9`. -/
def fnFail : Ctx → String → ResResult := fun _ _ => .error 9

/-- A sample `lookupIPAddr` capability: `a.test` resolves to no addresses at
all, every other hostname fails with error `7`. -/
def baseEmpty : Ctx → String → Except Err (List IPAddr) :=
  fun _ host => if host = "a.test" then .ok [] else .error 7

/-- A freshly constructed resolver (all defaults, empty cache). -/
def r0 : Resolver := NewDNSResolver 0 0

/-- A resolver with `b.test` already cached. -/
def r1 : Resolver := { r0 with cache := [("b.test", [20])] }

/-- A resolver with both `a.test` and `b.test` cached. -/
def rMix : Resolver := { r0 with cache := [("a.test", [1]), ("b.test", [2])] }

/-! Helper lemmas about the cache map. -/

theorem cacheFind_insert (c : Cache) (h x : String) (v : List IP) :
    cacheFind (cacheInsert c h v) x = if h = x then some v else cacheFind c x := by
  induction c with
  | nil => simp [cacheInsert, cacheFind]
  | cons p rest ih =>
      obtain ⟨k, w⟩ := p
      by_cases hk : k = h
      · subst hk
        by_cases hx : k = x <;> simp [cacheInsert, cacheFind, hx]
      · by_cases hx : k = x
        · subst hx
          have hx' : ¬ (h = k) := fun e => hk e.symm
          simp [cacheInsert, cacheFind, hk, hx']
        · simp [cacheInsert, cacheFind, hk, hx, ih]

theorem cacheKeys_nil : cacheKeys [] = [] := rfl

theorem cacheKeys_cons (k : String) (w : List IP) (rest : Cache) :
    cacheKeys ((k, w) :: rest) = k :: cacheKeys rest := rfl

theorem cacheFind_isSome_iff_mem (c : Cache) (x : String) :
    (cacheFind c x).isSome = true ↔ x ∈ cacheKeys c := by
  induction c with
  | nil => simp [cacheFind, cacheKeys_nil]
  | cons p rest ih =>
      obtain ⟨k, w⟩ := p
      rw [cacheKeys_cons]
      by_cases hk : k = x
      · subst hk; simp [cacheFind]
      · simp only [cacheFind, if_neg hk, ih, List.mem_cons]
        constructor
        · exact fun hmem => Or.inr hmem
        · rintro (he | hmem)
          · exact absurd he.symm hk
          · exact hmem

theorem cacheKeys_insert (c : Cache) (h : String) (v : List IP) :
    cacheKeys (cacheInsert c h v)
      = if h ∈ cacheKeys c then cacheKeys c else cacheKeys c ++ [h] := by
  induction c with
  | nil => simp [cacheInsert, cacheKeys]
  | cons p rest ih =>
      obtain ⟨k, w⟩ := p
      by_cases hk : k = h
      · subst hk
        simp [cacheInsert, cacheKeys_cons]
      · have hk' : ¬ (h = k) := fun e => hk e.symm
        simp only [cacheInsert, if_neg hk, cacheKeys_cons, ih, List.mem_cons, hk',
          false_or]
        by_cases hm : h ∈ cacheKeys rest <;> simp [hm]

theorem nodup_cacheKeys_insert (c : Cache) (h : String) (v : List IP)
    (hn : (cacheKeys c).Nodup) : (cacheKeys (cacheInsert c h v)).Nodup := by
  rw [cacheKeys_insert]
  by_cases hm : h ∈ cacheKeys c
  · simpa [hm] using hn
  · rw [if_neg hm]
    refine hn.append (List.nodup_singleton h) ?_
    intro a ha hb
    simp at hb
    subst hb
    exact hm ha

/-! Helper lemmas about `LookupIP`. -/

theorem lookupIP_ret (r : Resolver) (fn : Ctx → String → ResResult) (ctx : Ctx)
    (addr : String) : (r.LookupIP fn ctx addr).ret = fn ctx addr := by
  cases h : fn ctx addr <;> simp [Resolver.LookupIP, h]

theorem lookupIP_attempts (r : Resolver) (fn : Ctx → String → ResResult) (ctx : Ctx)
    (addr : String) : (r.LookupIP fn ctx addr).attempts = [(addr, fn ctx addr)] := by
  cases h : fn ctx addr <;> simp [Resolver.LookupIP, h]

theorem lookupIP_calls (r : Resolver) (fn : Ctx → String → ResResult) (ctx : Ctx)
    (addr : String) : (r.LookupIP fn ctx addr).calls = 1 := by
  cases h : fn ctx addr <;> simp [Resolver.LookupIP, h]

theorem lookupIP_lookupTimeout (r : Resolver) (fn : Ctx → String → ResResult) (ctx : Ctx)
    (addr : String) : (r.LookupIP fn ctx addr).st.lookupTimeout = r.lookupTimeout := by
  cases h : fn ctx addr <;> simp [Resolver.LookupIP, h]

theorem cacheFind_lookupIP (r : Resolver) (fn : Ctx → String → ResResult) (ctx : Ctx)
    (addr x : String) :
    cacheFind (r.LookupIP fn ctx addr).st.cache x
      = applyAttempt (cacheFind r.cache x) x (addr, fn ctx addr) := by
  cases h : fn ctx addr with
  | error e => simp [Resolver.LookupIP, h, applyAttempt]
  | ok ips => simp [Resolver.LookupIP, h, applyAttempt, cacheFind_insert]

/-! Helper lemmas about `Fetch`, `refreshLoop` and `Refresh`. -/

theorem fetch_hit (r : Resolver) (fn : Ctx → String → ResResult) (ctx : Ctx)
    (addr : String) (ips : List IP) (h : cacheFind r.cache addr = some ips) :
    r.Fetch fn ctx addr
      = { ret := .ok ips
          st := r
          calls := 0
          evts := [.rlock, .readCache addr, .runlock]
          log := []
          attempts := [] } := by
  simp [Resolver.Fetch, h]

theorem fetch_miss_eq (r : Resolver) (fn : Ctx → String → ResResult) (ctx : Ctx)
    (addr : String) (h : cacheFind r.cache addr = none) :
    r.Fetch fn ctx addr
      = { r.LookupIP fn ctx addr with
          evts := [.rlock, .readCache addr, .runlock]
                    ++ (r.LookupIP fn ctx addr).evts } := by
  simp [Resolver.Fetch, h]

theorem refreshLoop_st_lookupTimeout (fn : Ctx → String → ResResult)
    (addrs : List String) : ∀ (r : Resolver),
    (refreshLoop fn addrs r).st.lookupTimeout = r.lookupTimeout := by
  induction addrs with
  | nil => intro r; simp [refreshLoop]
  | cons addr rest ih =>
      intro r
      simp only [refreshLoop]
      rw [ih, lookupIP_lookupTimeout]

theorem refreshLoop_attempts (fn : Ctx → String → ResResult) (addrs : List String)
    (T : Int) : ∀ (r : Resolver), r.lookupTimeout = T →
    (refreshLoop fn addrs r).attempts
      = addrs.map (fun k => (k, fn (Ctx.withTimeout .background T) k)) := by
  induction addrs with
  | nil => intro r _; simp [refreshLoop]
  | cons addr rest ih =>
      intro r hT
      simp only [refreshLoop, List.map_cons]
      rw [lookupIP_attempts, hT,
        ih _ (by rw [lookupIP_lookupTimeout, hT])]
      simp

theorem refreshLoop_calls (fn : Ctx → String → ResResult) (addrs : List String) :
    ∀ (r : Resolver), (refreshLoop fn addrs r).calls = addrs.length := by
  induction addrs with
  | nil => intro r; simp [refreshLoop]
  | cons addr rest ih =>
      intro r
      simp only [refreshLoop]
      rw [lookupIP_calls, ih]
      simp [Nat.add_comm]

theorem refreshLoop_log (fn : Ctx → String → ResResult) (addrs : List String)
    (T : Int) : ∀ (r : Resolver), r.lookupTimeout = T →
    (refreshLoop fn addrs r).log
      = addrs.filterMap (fun k =>
          match fn (Ctx.withTimeout .background T) k with
          | .error e => some (e, k)
          | .ok _ => none) := by
  induction addrs with
  | nil => intro r _; simp [refreshLoop]
  | cons addr rest ih =>
      intro r hT
      simp only [refreshLoop, List.filterMap_cons]
      rw [lookupIP_ret, hT, ih _ (by rw [lookupIP_lookupTimeout, hT])]
      cases fn (Ctx.withTimeout .background T) addr <;> simp

theorem cacheFind_refreshLoop (fn : Ctx → String → ResResult) (addrs : List String)
    (x : String) : ∀ (r : Resolver),
    cacheFind (refreshLoop fn addrs r).st.cache x
      = (refreshLoop fn addrs r).attempts.foldl
          (fun acc p => applyAttempt acc x p) (cacheFind r.cache x) := by
  induction addrs with
  | nil => intro r; simp [refreshLoop]
  | cons addr rest ih =>
      intro r
      simp only [refreshLoop]
      rw [List.foldl_append, ih, lookupIP_attempts, cacheFind_lookupIP]
      simp

theorem cacheFind_refresh (r : Resolver) (fn : Ctx → String → ResResult)
    (x : String) :
    cacheFind (r.Refresh fn).st.cache x
      = (r.Refresh fn).attempts.foldl
          (fun acc p => applyAttempt acc x p) (cacheFind r.cache x) := by
  simp only [Resolver.Refresh]
  exact cacheFind_refreshLoop fn (cacheKeys r.cache) x r

/-! Helper lemmas about folding attempts. -/

theorem foldl_applyAttempt_all_error (l : List (String × ResResult)) (x : String) :
    ∀ (acc : Option (List IP)),
    (∀ p ∈ l, p.1 = x → ∃ e, p.2 = .error e) →
    l.foldl (fun acc p => applyAttempt acc x p) acc = acc := by
  induction l with
  | nil => intro acc _; simp
  | cons p rest ih =>
      intro acc hl
      obtain ⟨k, res⟩ := p
      simp only [List.foldl_cons]
      have hstep : applyAttempt acc x (k, res) = acc := by
        by_cases hk : k = x
        · obtain ⟨e, he⟩ := hl (k, res) (by simp) hk
          have he' : res = Except.error e := he
          simp [applyAttempt, hk, he']
        · simp [applyAttempt, hk]
      rw [hstep]
      exact ih acc (fun q hq => hl q (by simp [hq]))

theorem foldl_applyAttempt_stable (l : List (String × ResResult)) (x : String)
    (v : List IP) (hok : ∀ p ∈ l, p.1 = x → p.2 = .ok v) :
    l.foldl (fun acc p => applyAttempt acc x p) (some v) = some v := by
  induction l with
  | nil => simp
  | cons p rest ih =>
      obtain ⟨k, res⟩ := p
      simp only [List.foldl_cons]
      have hstep : applyAttempt (some v) x (k, res) = some v := by
        by_cases hk : k = x
        · have h2 : res = Except.ok v := hok (k, res) (by simp) hk
          simp [applyAttempt, hk, h2]
        · simp [applyAttempt, hk]
      rw [hstep]
      exact ih (fun q hq => hok q (by simp [hq]))

theorem foldl_applyAttempt_last_ok (l : List (String × ResResult)) (x : String)
    (v : List IP) : ∀ (acc : Option (List IP)),
    (∃ p ∈ l, p.1 = x) → (∀ p ∈ l, p.1 = x → p.2 = .ok v) →
    l.foldl (fun acc p => applyAttempt acc x p) acc = some v := by
  induction l with
  | nil => intro acc hmem _; simp at hmem
  | cons p rest ih =>
      intro acc hmem hok
      obtain ⟨k, res⟩ := p
      simp only [List.foldl_cons]
      by_cases hk : k = x
      · have hres : res = .ok v := hok (k, res) (by simp) hk
        rw [show applyAttempt acc x (k, res) = some v by simp [applyAttempt, hk, hres]]
        exact foldl_applyAttempt_stable rest x v (fun q hq => hok q (by simp [hq]))
      · rw [show applyAttempt acc x (k, res) = acc by simp [applyAttempt, hk]]
        refine ih acc ?_ (fun q hq => hok q (by simp [hq]))
        obtain ⟨q, hq, hqx⟩ := hmem
        rcases List.mem_cons.mp hq with he | hmem'
        · exact absurd (by rw [he] at hqx; exact hqx) hk
        · exact ⟨q, hmem', hqx⟩

theorem foldl_applyAttempt_isSome (l : List (String × ResResult)) (x : String) :
    ∀ (acc : Option (List IP)), acc.isSome = true →
    (l.foldl (fun acc p => applyAttempt acc x p) acc).isSome = true := by
  induction l with
  | nil => intro acc h; simpa using h
  | cons p rest ih =>
      intro acc h
      obtain ⟨k, res⟩ := p
      simp only [List.foldl_cons]
      refine ih _ ?_
      by_cases hk : k = x
      · cases res <;> simp [applyAttempt, hk, h]
      · simp [applyAttempt, hk, h]

/-! Helper lemmas about `Stop`. -/

theorem stop_first (r : Resolver) (h1 : r.closerPresent = true)
    (h2 : r.chClosed = false) :
    r.Stop = some { r with closerPresent := false, tickerActive := false,
                           chClosed := true } := by
  simp [Resolver.Stop, closerRun, h1, h2]

theorem stop_noCloser (r : Resolver) (h : r.closerPresent = false) :
    r.Stop = some r := by
  simp [Resolver.Stop, h]

theorem stop_cache (r r' : Resolver) (h : r.Stop = some r') : r'.cache = r.cache := by
  by_cases hc : r.closerPresent
  · by_cases hch : r.chClosed
    · simp [Resolver.Stop, closerRun, hc, hch] at h
    · rw [stop_first r hc (by simpa using hch)] at h
      cases h
      rfl
  · rw [stop_noCloser r (by simpa using hc)] at h
    cases h
    rfl

theorem stop_getD_cache (r : Resolver) : (r.Stop.getD r).cache = r.cache := by
  cases h : r.Stop with
  | none => simp
  | some r' => simpa using stop_cache r r' h

/-! Characterization of the cache after each operation and after a run, in
terms of the resolution attempts made. -/

theorem lookupIP_nodup (r : Resolver) (fn : Ctx → String → ResResult) (ctx : Ctx)
    (addr : String) (hn : (cacheKeys r.cache).Nodup) :
    (cacheKeys (r.LookupIP fn ctx addr).st.cache).Nodup := by
  cases h : fn ctx addr with
  | error e => simpa [Resolver.LookupIP, h] using hn
  | ok ips =>
      simp only [Resolver.LookupIP, h]
      exact nodup_cacheKeys_insert r.cache addr ips hn

theorem refreshLoop_nodup (fn : Ctx → String → ResResult) (addrs : List String) :
    ∀ (r : Resolver), (cacheKeys r.cache).Nodup →
    (cacheKeys (refreshLoop fn addrs r).st.cache).Nodup := by
  induction addrs with
  | nil => intro r hn; simpa [refreshLoop] using hn
  | cons addr rest ih =>
      intro r hn
      simp only [refreshLoop]
      exact ih _ (lookupIP_nodup r fn _ addr hn)

theorem execOp_cacheFind (r : Resolver) (op : Op) (x : String) :
    cacheFind (execOp r op).1.cache x
      = (execOp r op).2.foldl (fun acc p => applyAttempt acc x p)
          (cacheFind r.cache x) := by
  cases op with
  | lookupIP fn ctx addr =>
      simp only [execOp]
      rw [lookupIP_attempts, cacheFind_lookupIP]
      simp
  | fetch fn ctx addr =>
      cases hf : cacheFind r.cache addr with
      | some ips => simp [execOp, fetch_hit r fn ctx addr ips hf]
      | none =>
          simp only [execOp, fetch_miss_eq r fn ctx addr hf]
          rw [lookupIP_attempts, cacheFind_lookupIP]
          simp
  | refresh fn =>
      simpa [execOp] using cacheFind_refresh r fn x
  | stop =>
      simp [execOp, stop_getD_cache]

theorem execOp_nodup (r : Resolver) (op : Op) (hn : (cacheKeys r.cache).Nodup) :
    (cacheKeys (execOp r op).1.cache).Nodup := by
  cases op with
  | lookupIP fn ctx addr => exact lookupIP_nodup r fn ctx addr hn
  | fetch fn ctx addr =>
      cases hf : cacheFind r.cache addr with
      | some ips => simpa [execOp, fetch_hit r fn ctx addr ips hf] using hn
      | none =>
          simp only [execOp, fetch_miss_eq r fn ctx addr hf]
          exact lookupIP_nodup r fn ctx addr hn
  | refresh fn =>
      simp only [execOp, Resolver.Refresh]
      exact refreshLoop_nodup fn (cacheKeys r.cache) r hn
  | stop =>
      have := stop_getD_cache r
      simp only [execOp]
      rw [this]
      exact hn

theorem runTrace_cacheFind (ops : List Op) (x : String) : ∀ (r : Resolver),
    cacheFind (runTrace r ops).1.cache x
      = (runTrace r ops).2.foldl (fun acc p => applyAttempt acc x p)
          (cacheFind r.cache x) := by
  induction ops with
  | nil => intro r; simp [runTrace]
  | cons op ops ih =>
      intro r
      simp only [runTrace]
      rw [List.foldl_append, ih, execOp_cacheFind]

theorem runTrace_nodup (ops : List Op) : ∀ (r : Resolver),
    (cacheKeys r.cache).Nodup → (cacheKeys (runTrace r ops).1.cache).Nodup := by
  induction ops with
  | nil => intro r hn; simpa [runTrace] using hn
  | cons op ops ih =>
      intro r hn
      simp only [runTrace]
      exact ih _ (execOp_nodup r op hn)

theorem runTrace_append_fst (ops more : List Op) : ∀ (r : Resolver),
    (runTrace r (ops ++ more)).1 = (runTrace (runTrace r ops).1 more).1 := by
  induction ops with
  | nil => intro r; simp [runTrace]
  | cons op rest ih =>
      intro r
      simp only [List.cons_append, runTrace]
      exact ih _

/-! Lock-discipline lemmas. -/

theorem disciplineRun_append (l₁ l₂ : List Evt) : ∀ (s : LockSt),
    disciplineRun s (l₁ ++ l₂)
      = (disciplineRun s l₁).bind (fun s' => disciplineRun s' l₂) := by
  induction l₁ with
  | nil => intro s; simp [disciplineRun]
  | cons e es ih =>
      intro s
      cases h : stepEvt s e <;> simp [disciplineRun, h, ih]

theorem disciplineRun_lookupIP (r : Resolver) (fn : Ctx → String → ResResult)
    (ctx : Ctx) (addr : String) :
    disciplineRun .free (r.LookupIP fn ctx addr).evts = some .free := by
  cases h : fn ctx addr <;> simp [Resolver.LookupIP, h, disciplineRun, stepEvt]

theorem disciplineRun_fetch (r : Resolver) (fn : Ctx → String → ResResult)
    (ctx : Ctx) (addr : String) :
    disciplineRun .free (r.Fetch fn ctx addr).evts = some .free := by
  cases hf : cacheFind r.cache addr with
  | some ips =>
      rw [fetch_hit r fn ctx addr ips hf]
      simp [disciplineRun, stepEvt]
  | none =>
      rw [fetch_miss_eq r fn ctx addr hf]
      show disciplineRun .free ([.rlock, .readCache addr, .runlock]
        ++ (r.LookupIP fn ctx addr).evts) = some .free
      rw [disciplineRun_append]
      simp [disciplineRun, stepEvt, disciplineRun_lookupIP]

theorem disciplineRun_refreshLoop (fn : Ctx → String → ResResult)
    (addrs : List String) : ∀ (r : Resolver),
    disciplineRun .free (refreshLoop fn addrs r).evts = some .free := by
  induction addrs with
  | nil => intro r; simp [refreshLoop, disciplineRun]
  | cons addr rest ih =>
      intro r
      simp only [refreshLoop]
      rw [disciplineRun_append, disciplineRun_lookupIP]
      simp [ih]

theorem disciplineRun_refresh (r : Resolver) (fn : Ctx → String → ResResult) :
    disciplineRun .free (r.Refresh fn).evts = some .free := by
  show disciplineRun .free ([.rlock, .snapshotKeys, .runlock]
    ++ (refreshLoop fn (cacheKeys r.cache) r).evts) = some .free
  rw [disciplineRun_append]
  simp [disciplineRun, stepEvt, disciplineRun_refreshLoop]

theorem disciplineRun_stop : disciplineRun .free stopEvents = some .free := rfl

/-! The claims. -/

/-- C1: if the resolution capability succeeds for hostname `addr` with list
`l` (even an empty one), `LookupIP` overwrites the cache entry for `addr`
with `l` — the post cache is exactly the prior cache with `addr` bound to
`l`, so a lookup of `addr` in the returned state yields `l` — and returns
exactly `l` with no error. The write is part of the state returned by the
call, so it happens before the successful return. -/
theorem lookupIP_success_stores_and_returns (r : Resolver)
    (fn : Ctx → String → ResResult) (ctx : Ctx) (addr : String) (l : List IP)
    (h : fn ctx addr = .ok l) :
    (r.LookupIP fn ctx addr).ret = .ok l
    ∧ (r.LookupIP fn ctx addr).st.cache = cacheInsert r.cache addr l
    ∧ cacheFind (r.LookupIP fn ctx addr).st.cache addr = some l := by
  refine ⟨by rw [lookupIP_ret, h], by simp [Resolver.LookupIP, h], ?_⟩
  rw [cacheFind_lookupIP, h]
  simp [applyAttempt]

/-- Witness for C1 at a concrete input. -/
theorem lookupIP_success_stores_and_returns_witness :
    (r0.LookupIP fnA .background "a.test").ret = .ok [10]
    ∧ (r0.LookupIP fnA .background "a.test").st.cache
        = cacheInsert r0.cache "a.test" [10]
    ∧ cacheFind (r0.LookupIP fnA .background "a.test").st.cache "a.test"
        = some [10] :=
  lookupIP_success_stores_and_returns r0 fnA .background "a.test" [10] (by decide)

/-- C2: if the resolution capability fails for hostname `addr`, `LookupIP`
returns that error (the Go address list is `nil`, which `.error e` stands
for) and the whole resolver state — in particular the entire cache mapping —
is exactly as before the call, so a following `Fetch` of any hostname
`addr2` cached with list `l` still returns `l`. -/
theorem lookupIP_failure_leaves_cache_unchanged (r : Resolver)
    (fn fn2 : Ctx → String → ResResult) (ctx ctx2 : Ctx) (addr addr2 : String)
    (e : Err) (l : List IP)
    (h : fn ctx addr = .error e) (hl : cacheFind r.cache addr2 = some l) :
    (r.LookupIP fn ctx addr).ret = .error e
    ∧ (r.LookupIP fn ctx addr).st = r
    ∧ ((r.LookupIP fn ctx addr).st.Fetch fn2 ctx2 addr2).ret = .ok l := by
  have hst : (r.LookupIP fn ctx addr).st = r := by simp [Resolver.LookupIP, h]
  refine ⟨by rw [lookupIP_ret, h], hst, ?_⟩
  rw [hst, fetch_hit r fn2 ctx2 addr2 l hl]

/-- Witness for C2 at a concrete input. -/
theorem lookupIP_failure_leaves_cache_unchanged_witness :
    (r1.LookupIP fnFail .background "a.test").ret = .error 9
    ∧ (r1.LookupIP fnFail .background "a.test").st = r1
    ∧ ((r1.LookupIP fnFail .background "a.test").st.Fetch fnA .background
        "b.test").ret = .ok [20] :=
  lookupIP_failure_leaves_cache_unchanged r1 fnFail fnA .background .background
    "a.test" "b.test" 9 [20] (by decide) (by decide)

/-- C3: on a cache miss, `Fetch` invokes the resolution capability exactly
once and returns exactly that single resolution's result — its list on
success, its error on failure; there is no separate "not found" outcome. -/
theorem fetch_miss_promotes_to_lookup (r : Resolver)
    (fn : Ctx → String → ResResult) (ctx : Ctx) (addr : String)
    (h : cacheFind r.cache addr = none) :
    (r.Fetch fn ctx addr).calls = 1
    ∧ (r.Fetch fn ctx addr).ret = fn ctx addr := by
  rw [fetch_miss_eq r fn ctx addr h]
  exact ⟨lookupIP_calls r fn ctx addr, lookupIP_ret r fn ctx addr⟩

/-- Witness for C3 at a concrete input. -/
theorem fetch_miss_promotes_to_lookup_witness :
    (r0.Fetch fnA .background "a.test").calls = 1
    ∧ (r0.Fetch fnA .background "a.test").ret = fnA .background "a.test" :=
  fetch_miss_promotes_to_lookup r0 fnA .background "a.test" (by decide)

/-- C4: after a `LookupIP` whose resolution succeeded with list `l`, an
immediately following `Fetch` of the same hostname is a cache hit: it
returns `l` with no error, performs zero resolution calls (whatever
capability `fn2` would answer now), and leaves the state unchanged. -/
theorem fetch_after_successful_lookup (r : Resolver)
    (fn fn2 : Ctx → String → ResResult) (ctx ctx2 : Ctx) (addr : String)
    (l : List IP) (h : fn ctx addr = .ok l) :
    ((r.LookupIP fn ctx addr).st.Fetch fn2 ctx2 addr).ret = .ok l
    ∧ ((r.LookupIP fn ctx addr).st.Fetch fn2 ctx2 addr).calls = 0
    ∧ ((r.LookupIP fn ctx addr).st.Fetch fn2 ctx2 addr).st
        = (r.LookupIP fn ctx addr).st := by
  have hfind : cacheFind (r.LookupIP fn ctx addr).st.cache addr = some l := by
    rw [cacheFind_lookupIP, h]
    simp [applyAttempt]
  rw [fetch_hit _ fn2 ctx2 addr l hfind]
  exact ⟨rfl, rfl, rfl⟩

/-- Witness for C4 at a concrete input. -/
theorem fetch_after_successful_lookup_witness :
    ((r0.LookupIP fnA .background "a.test").st.Fetch fnFail .background
        "a.test").ret = .ok [10]
    ∧ ((r0.LookupIP fnA .background "a.test").st.Fetch fnFail .background
        "a.test").calls = 0
    ∧ ((r0.LookupIP fnA .background "a.test").st.Fetch fnFail .background
        "a.test").st = (r0.LookupIP fnA .background "a.test").st :=
  fetch_after_successful_lookup r0 fnA fnFail .background .background "a.test"
    [10] (by decide)

/-- C5: from the empty mapping a freshly constructed resolver starts with,
any sequence of operations preserves the cache-state invariant: the mapping
holds at most one entry per hostname (its key list stays duplicate-free),
the entry present for a hostname is exactly the last successfully resolved
result for it over all resolution attempts the run made (`lastSuccess`; in
particular a hostname none of whose attempts succeeded has no entry, so keys
are added only by successful lookups), and the key set never shrinks —
whatever operations follow, a hostname once present stays present. -/
theorem cache_invariant_from_empty (freq lt : Int) (ops more : List Op)
    (x : String) :
    (cacheKeys (runTrace (NewDNSResolver freq lt) ops).1.cache).Nodup
    ∧ cacheFind (runTrace (NewDNSResolver freq lt) ops).1.cache x
        = lastSuccess (runTrace (NewDNSResolver freq lt) ops).2 x
    ∧ ((cacheFind (runTrace (NewDNSResolver freq lt) ops).1.cache x).isSome
          = true →
        (cacheFind (runTrace (NewDNSResolver freq lt) (ops ++ more)).1.cache
            x).isSome = true) := by
  have hinit : (NewDNSResolver freq lt).cache = [] := rfl
  refine ⟨?_, ?_, ?_⟩
  · exact runTrace_nodup ops _ (by rw [hinit]; exact List.nodup_nil)
  · rw [runTrace_cacheFind, hinit]
    rfl
  · intro hs
    rw [runTrace_append_fst, runTrace_cacheFind]
    exact foldl_applyAttempt_isSome _ x _ hs

/-- Witness for C5 at a concrete input. -/
theorem cache_invariant_from_empty_witness :
    (cacheKeys (runTrace (NewDNSResolver 0 0)
        [Op.lookupIP fnA .background "a.test"]).1.cache).Nodup
    ∧ cacheFind (runTrace (NewDNSResolver 0 0)
          [Op.lookupIP fnA .background "a.test"]).1.cache "a.test"
        = lastSuccess (runTrace (NewDNSResolver 0 0)
            [Op.lookupIP fnA .background "a.test"]).2 "a.test"
    ∧ ((cacheFind (runTrace (NewDNSResolver 0 0)
            [Op.lookupIP fnA .background "a.test"]).1.cache "a.test").isSome
          = true →
        (cacheFind (runTrace (NewDNSResolver 0 0)
            ([Op.lookupIP fnA .background "a.test"]
              ++ [Op.refresh fnFail])).1.cache "a.test").isSome = true) :=
  cache_invariant_from_empty 0 0 [Op.lookupIP fnA .background "a.test"]
    [Op.refresh fnFail] "a.test"

/-- C6: a single `Refresh` sweep attempts a lookup for every hostname of the
key-set snapshot — one resolution call per snapshotted hostname, in snapshot
order, each bound by a fresh timeout context, and a failure for one hostname
never aborts the sweep, which always runs to completion returning nothing.
Every hostname whose resolution succeeds has its entry updated to the newly
resolved list; every hostname whose resolution fails keeps its prior entry;
and exactly the failures are reported to the logger, as (error, hostname)
pairs. -/
theorem refresh_partial_sweep (r : Resolver) (fn : Ctx → String → ResResult)
    (h : String) (l0 l : List IP) (e : Err) :
    (r.Refresh fn).calls = (cacheKeys r.cache).length
    ∧ (r.Refresh fn).attempts
        = (cacheKeys r.cache).map
            (fun k => (k, fn (Ctx.withTimeout .background r.lookupTimeout) k))
    ∧ (r.Refresh fn).log
        = (cacheKeys r.cache).filterMap
            (fun k =>
              match fn (Ctx.withTimeout .background r.lookupTimeout) k with
              | .error e' => some (e', k)
              | .ok _ => none)
    ∧ (fn (Ctx.withTimeout .background r.lookupTimeout) h = .ok l →
        h ∈ cacheKeys r.cache →
        cacheFind (r.Refresh fn).st.cache h = some l)
    ∧ (fn (Ctx.withTimeout .background r.lookupTimeout) h = .error e →
        cacheFind r.cache h = some l0 →
        cacheFind (r.Refresh fn).st.cache h = some l0) := by
  have hatt : (r.Refresh fn).attempts
      = (cacheKeys r.cache).map
          (fun k => (k, fn (Ctx.withTimeout .background r.lookupTimeout) k)) :=
    refreshLoop_attempts fn (cacheKeys r.cache) r.lookupTimeout r rfl
  refine ⟨refreshLoop_calls fn (cacheKeys r.cache) r, hatt,
    refreshLoop_log fn (cacheKeys r.cache) r.lookupTimeout r rfl, ?_, ?_⟩
  · intro hok hmem
    rw [cacheFind_refresh, hatt]
    refine foldl_applyAttempt_last_ok _ h l _ ?_ ?_
    · exact ⟨(h, fn (Ctx.withTimeout .background r.lookupTimeout) h),
        List.mem_map_of_mem _ hmem, rfl⟩
    · intro p hp hph
      obtain ⟨k, hk, rfl⟩ := List.mem_map.mp hp
      have : k = h := hph
      rw [this]
      exact hok
  · intro herr hl0
    rw [cacheFind_refresh, hatt, foldl_applyAttempt_all_error _ h _ ?_, hl0]
    intro p hp hph
    obtain ⟨k, hk, rfl⟩ := List.mem_map.mp hp
    have : k = h := hph
    rw [this, herr]
    exact ⟨e, rfl⟩

/-- Witness for C6 at a concrete input: a two-entry cache where `a.test`
succeeds and `b.test` fails. -/
theorem refresh_partial_sweep_witness :
    (rMix.Refresh fnA).calls = (cacheKeys rMix.cache).length
    ∧ (rMix.Refresh fnA).attempts
        = (cacheKeys rMix.cache).map
            (fun k => (k, fnA (Ctx.withTimeout .background rMix.lookupTimeout) k))
    ∧ (rMix.Refresh fnA).log
        = (cacheKeys rMix.cache).filterMap
            (fun k =>
              match fnA (Ctx.withTimeout .background rMix.lookupTimeout) k with
              | .error e' => some (e', k)
              | .ok _ => none)
    ∧ (fnA (Ctx.withTimeout .background rMix.lookupTimeout) "a.test"
          = .ok [10] →
        "a.test" ∈ cacheKeys rMix.cache →
        cacheFind (rMix.Refresh fnA).st.cache "a.test" = some [10])
    ∧ (fnA (Ctx.withTimeout .background rMix.lookupTimeout) "a.test"
          = .error 7 →
        cacheFind rMix.cache "a.test" = some [1] →
        cacheFind (rMix.Refresh fnA).st.cache "a.test" = some [1]) :=
  refresh_partial_sweep rMix fnA "a.test" [1] [10] 7

/-- C7: `Stop` is idempotent and never touches the cache. From a state where
the closer is still installed and the channel is still open (as after
construction), the first `Stop` stops the ticker, closes the channel and
uninstalls the closer without faulting; a second `Stop` returns the state
unchanged — in particular it does not run the closer again, so there is no
double-close fault; and any `Stop` call from any state leaves the cache
mapping exactly as it was. -/
theorem stop_idempotent_cache_untouched (r : Resolver)
    (h1 : r.closerPresent = true) (h2 : r.chClosed = false) :
    ∃ r' : Resolver, r.Stop = some r'
      ∧ r'.Stop = some r'
      ∧ r'.cache = r.cache
      ∧ r'.closerPresent = false
      ∧ r'.tickerActive = false
      ∧ r'.chClosed = true
      ∧ (∀ s s' : Resolver, s.Stop = some s' → s'.cache = s.cache) :=
  ⟨_, stop_first r h1 h2, stop_noCloser _ rfl, rfl, rfl, rfl, rfl, stop_cache⟩

/-- Witness for C7 at a concrete input. -/
theorem stop_idempotent_cache_untouched_witness :
    ∃ r' : Resolver, r0.Stop = some r'
      ∧ r'.Stop = some r'
      ∧ r'.cache = r0.cache
      ∧ r'.closerPresent = false
      ∧ r'.tickerActive = false
      ∧ r'.chClosed = true
      ∧ (∀ s s' : Resolver, s.Stop = some s' → s'.cache = s.cache) :=
  stop_idempotent_cache_untouched r0 (by decide) (by decide)

/-- C8: at construction, a non-positive refresh interval is replaced by the
default of 3 seconds and a non-positive per-lookup timeout by the default of
10 seconds (durations in nanoseconds); positive supplied values are used
unchanged. -/
theorem newDNSResolver_defaults (freq lt : Int) :
    (freq ≤ 0 → (NewDNSResolver freq lt).freq = 3 * second)
    ∧ (0 < freq → (NewDNSResolver freq lt).freq = freq)
    ∧ (lt ≤ 0 → (NewDNSResolver freq lt).lookupTimeout = 10 * second)
    ∧ (0 < lt → (NewDNSResolver freq lt).lookupTimeout = lt) := by
  refine ⟨?_, ?_, ?_, ?_⟩ <;> intro h
  · simp [NewDNSResolver, defaultFreq, h]
  · simp [NewDNSResolver, if_neg (not_le.mpr h)]
  · simp [NewDNSResolver, defaultLookupTimeout, h]
  · simp [NewDNSResolver, if_neg (not_le.mpr h)]

/-- Witness for C8 at a concrete input. -/
theorem newDNSResolver_defaults_witness :
    ((-1 : Int) ≤ 0 → (NewDNSResolver (-1) 5).freq = 3 * second)
    ∧ ((0 : Int) < -1 → (NewDNSResolver (-1) 5).freq = -1)
    ∧ ((5 : Int) ≤ 0 → (NewDNSResolver (-1) 5).lookupTimeout = 10 * second)
    ∧ ((0 : Int) < 5 → (NewDNSResolver (-1) 5).lookupTimeout = 5) :=
  newDNSResolver_defaults (-1) 5

/-- C9: lock discipline over the shared mapping, stated on the operations'
event traces. The discipline check (`stepEvt`: balanced lock/unlock, cache
reads and the key-set snapshot only under at least the shared lock, cache
writes only under the exclusive lock, resolution calls only with no lock
held) passes for every trace of `LookupIP`, `Fetch` and `Refresh`, and for
`Stop`'s trace; moreover a `Fetch` hit takes only the shared lock, a
successful `LookupIP` resolves first and only then takes the exclusive lock
for its cache write, and `Refresh` takes the shared lock just for the
key-set snapshot, before any resolution call. -/
theorem lock_discipline (r : Resolver) (fn : Ctx → String → ResResult)
    (ctx : Ctx) (addr : String) (ips : List IP) :
    disciplineRun .free (r.LookupIP fn ctx addr).evts = some .free
    ∧ disciplineRun .free (r.Fetch fn ctx addr).evts = some .free
    ∧ disciplineRun .free (r.Refresh fn).evts = some .free
    ∧ disciplineRun .free stopEvents = some .free
    ∧ (cacheFind r.cache addr = some ips →
        (r.Fetch fn ctx addr).evts = [.rlock, .readCache addr, .runlock])
    ∧ (fn ctx addr = .ok ips →
        (r.LookupIP fn ctx addr).evts
          = [.resolve addr, .wlock, .writeCache addr, .wunlock])
    ∧ (r.Refresh fn).evts
        = [.rlock, .snapshotKeys, .runlock]
            ++ (refreshLoop fn (cacheKeys r.cache) r).evts := by
  refine ⟨disciplineRun_lookupIP r fn ctx addr, disciplineRun_fetch r fn ctx addr,
    disciplineRun_refresh r fn, disciplineRun_stop, ?_, ?_, rfl⟩
  · intro hf
    rw [fetch_hit r fn ctx addr ips hf]
  · intro hok
    simp [Resolver.LookupIP, hok]

/-- Witness for C9 at a concrete input. -/
theorem lock_discipline_witness :
    disciplineRun .free (r1.LookupIP fnA .background "b.test").evts = some .free
    ∧ disciplineRun .free (r1.Fetch fnA .background "b.test").evts = some .free
    ∧ disciplineRun .free (r1.Refresh fnA).evts = some .free
    ∧ disciplineRun .free stopEvents = some .free
    ∧ (cacheFind r1.cache "b.test" = some [20] →
        (r1.Fetch fnA .background "b.test").evts
          = [.rlock, .readCache "b.test", .runlock])
    ∧ (fnA .background "b.test" = .ok [20] →
        (r1.LookupIP fnA .background "b.test").evts
          = [.resolve "b.test", .wlock, .writeCache "b.test", .wunlock])
    ∧ (r1.Refresh fnA).evts
        = [.rlock, .snapshotKeys, .runlock]
            ++ (refreshLoop fnA (cacheKeys r1.cache) r1).evts :=
  lock_discipline r1 fnA .background "b.test" [20]

/-- C10: if resolution for hostname `addr` succeeds with zero addresses (the
adapter turns a successful empty `LookupIPAddr` answer into an empty IP
list), `LookupIP` stores the empty list as `addr`'s cache entry, and a
subsequent `Fetch` of `addr` is a cache hit: it returns the empty list with
no error, performs no resolution call (whatever capability `fn2` would
answer), and leaves the state unchanged — so every further `Fetch` behaves
the same. -/
theorem empty_result_cached_and_served (r : Resolver)
    (base : Ctx → String → Except Err (List IPAddr))
    (fn2 : Ctx → String → ResResult) (ctx ctx2 : Ctx) (addr : String)
    (h : base ctx addr = .ok []) :
    (r.LookupIP (mkLookupIPFn base) ctx addr).ret = .ok []
    ∧ cacheFind (r.LookupIP (mkLookupIPFn base) ctx addr).st.cache addr
        = some []
    ∧ ((r.LookupIP (mkLookupIPFn base) ctx addr).st.Fetch fn2 ctx2 addr).ret
        = .ok []
    ∧ ((r.LookupIP (mkLookupIPFn base) ctx addr).st.Fetch fn2 ctx2 addr).calls
        = 0
    ∧ ((r.LookupIP (mkLookupIPFn base) ctx addr).st.Fetch fn2 ctx2 addr).st
        = (r.LookupIP (mkLookupIPFn base) ctx addr).st := by
  have hfn : mkLookupIPFn base ctx addr = .ok [] := by
    simp [mkLookupIPFn, h]
  have hfind : cacheFind (r.LookupIP (mkLookupIPFn base) ctx addr).st.cache addr
      = some [] := by
    rw [cacheFind_lookupIP, hfn]
    simp [applyAttempt]
  refine ⟨by rw [lookupIP_ret, hfn], hfind, ?_, ?_, ?_⟩ <;>
    rw [fetch_hit _ fn2 ctx2 addr [] hfind]

/-- Witness for C10 at a concrete input. -/
theorem empty_result_cached_and_served_witness :
    (r0.LookupIP (mkLookupIPFn baseEmpty) .background "a.test").ret = .ok []
    ∧ cacheFind (r0.LookupIP (mkLookupIPFn baseEmpty) .background
          "a.test").st.cache "a.test" = some []
    ∧ ((r0.LookupIP (mkLookupIPFn baseEmpty) .background "a.test").st.Fetch
          fnFail .background "a.test").ret = .ok []
    ∧ ((r0.LookupIP (mkLookupIPFn baseEmpty) .background "a.test").st.Fetch
          fnFail .background "a.test").calls = 0
    ∧ ((r0.LookupIP (mkLookupIPFn baseEmpty) .background "a.test").st.Fetch
          fnFail .background "a.test").st
        = (r0.LookupIP (mkLookupIPFn baseEmpty) .background "a.test").st :=
  empty_result_cached_and_served r0 baseEmpty fnFail .background .background
    "a.test" (by decide)

end DNSCache
